import Mathlib

/-!
Verification of go-genesis: the contract handler, NewAccountParser and SingleResult.

A shallow embedding of

* `packages/apiv2/contract.go`   (the `contract` HTTP handler),
* `packages/parser/new_account.go` (`NewAccountParser`),
* `packages/model/result.go`     (`Single`, `SingleResult`),

together with the Go standard-library functions they call
(`strings.TrimSpace`, `strings.Contains`, `strings.HasPrefix`,
`strconv.ParseInt`, `encoding/hex`, `binary.LittleEndian.Uint64`).

Conventions.
* A Go `[]byte` is a list of naturals below 256 (`Bytes`).
* A Go `string` holding text (form values, names, table names) is a Lean
  `String`; `[]byte(s)` and `len(s)` go through its UTF-8 encoding.
* A Go `int64` is an `Int`, a `uint64` a `Nat`; conversions reduce modulo `2^64`.
* A `float64` is represented by its IEEE-754 bit pattern (`math.Float64bits`).
* A Go `error` is the text its `Error()` method returns; `nil` is `none`.
* Functions of packages that are not part of the embedded files
  (`converter`, `utils`, `model.SendTx`, `msgpack`, the `Parser` base type)
  are parameters, collected in the structures `Deps` and `ParserDeps`.
* Calls of the logger are left out: they return nothing and change no value
  the embedded functions compute.
-/

namespace GoGenesis

/-! ## Go standard library -/

/-- Byte slices: every element is meant to be below 256. -/
abbrev Bytes := List Nat

/-- Go errors, identified with their message. -/
abbrev GoError := String

/-- UTF-8 encoding of one code point, as Go stores it inside a string. -/
def utf8EncodeRune (c : Nat) : Bytes :=
  if c < 0x80 then [c]
  else if c < 0x800 then [0xC0 + c / 64, 0x80 + c % 64]
  else if c < 0x10000 then [0xE0 + c / 4096, 0x80 + (c / 64) % 64, 0x80 + c % 64]
  else [0xF0 + c / 262144, 0x80 + (c / 4096) % 64, 0x80 + (c / 64) % 64, 0x80 + c % 64]

/-- The conversion `[]byte(s)`. -/
def toBytes (s : String) : Bytes :=
  s.data.flatMap (fun c => utf8EncodeRune c.toNat)

/-- The builtin `len(s)` of a string: its number of bytes. -/
def strLen (s : String) : Nat := (toBytes s).length

/-- The predicate `unicode.IsSpace`. -/
def isSpace (c : Char) : Bool :=
  let r := c.toNat
  if r ≤ 0xFF then
    r == 0x09 || r == 0x0A || r == 0x0B || r == 0x0C || r == 0x0D || r == 0x20
      || r == 0x85 || r == 0xA0
  else
    r == 0x1680 || (0x2000 ≤ r && r ≤ 0x200A) || r == 0x2028 || r == 0x2029
      || r == 0x202F || r == 0x205F || r == 0x3000

/-- The function `strings.TrimSpace`: leading and trailing white space removed. -/
def TrimSpace (s : String) : String :=
  String.mk ((s.data.dropWhile isSpace).reverse.dropWhile isSpace).reverse

/-- Whether `p` starts the list `l` (byte-wise comparison of Go strings). -/
def startsWith : List Char → List Char → Bool
  | [], _ => true
  | _ :: _, [] => false
  | a :: p, b :: l => a == b && startsWith p l

/-- The function `strings.HasPrefix`. -/
def HasPrefix (s p : String) : Bool := startsWith p.data s.data

/-- Substring search on character lists. -/
def containsList (sub : List Char) : List Char → Bool
  | [] => startsWith sub []
  | c :: l => startsWith sub (c :: l) || containsList sub l

/-- The function `strings.Contains`. -/
def Contains (s sub : String) : Bool := containsList sub.data s.data

/-- Value of a decimal digit, `none` for any other character. -/
def decDigit (c : Char) : Option Nat :=
  if 48 ≤ c.toNat ∧ c.toNat ≤ 57 then some (c.toNat - 48) else none

/-- The loop of `strconv.ParseUint(s, 10, 64)` over the characters left, with
accumulator `n`: a character that is no digit is a syntax error, a value that
leaves the 64-bit range a range error (both `none`). -/
def parseUintLoop : List Char → Nat → Option Nat
  | [], n => some n
  | c :: cs, n =>
    match decDigit c with
    | none => none
    | some d => if n * 10 + d < 2 ^ 64 then parseUintLoop cs (n * 10 + d) else none

/-- The function `strconv.ParseUint(s, 10, 64)`; `none` stands for `err != nil`. -/
def ParseUint (s : List Char) : Option Nat :=
  match s with
  | [] => none
  | _ => parseUintLoop s 0

/-- The function `strconv.ParseInt(s, 10, 64)`; `none` stands for `err != nil`.
An optional sign is picked off, the rest goes through `ParseUint`, and the
magnitude is checked against the signed range. -/
def ParseInt (s : String) : Option Int :=
  match s.data with
  | [] => none
  | c :: cs =>
    let neg := c == '-'
    let rest := if c == '+' ∨ c == '-' then cs else c :: cs
    match ParseUint rest with
    | none => none
    | some un =>
      if !neg && un ≥ 2 ^ 63 then none
      else if neg && un > 2 ^ 63 then none
      else some (if neg then -(un : Int) else (un : Int))

/-- The conversion `uint64(x)` of an `int64`. -/
def toUint64 (x : Int) : Nat := (x % 2 ^ 64).toNat

/-- Value of a hexadecimal digit (`fromHexChar` of `encoding/hex`). -/
def fromHexChar (c : Char) : Option Nat :=
  let r := c.toNat
  if 48 ≤ r ∧ r ≤ 57 then some (r - 48)
  else if 97 ≤ r ∧ r ≤ 102 then some (r - 97 + 10)
  else if 65 ≤ r ∧ r ≤ 70 then some (r - 65 + 10)
  else none

/-- The decoding loop of `hex.Decode`: two digits make a byte; a character
that is no hex digit, or a single digit left over, is an error. -/
def hexDecodeLoop : List Char → Option Bytes
  | [] => some []
  | [_] => none
  | a :: b :: rest =>
    match fromHexChar a, fromHexChar b with
    | some x, some y =>
      match hexDecodeLoop rest with
      | some tl => some ((x * 16 + y) :: tl)
      | none => none
    | _, _ => none

/-- The function `hex.DecodeString`; `none` stands for `err != nil`. -/
def hexDecodeString (s : String) : Option Bytes := hexDecodeLoop s.data

/-- The lower-case digit table of `encoding/hex`. -/
def hexDigit (n : Nat) : Char :=
  if n < 10 then Char.ofNat (48 + n) else Char.ofNat (97 + (n - 10))

/-- The function `hex.EncodeToString`. -/
def hexEncodeToString (b : Bytes) : String :=
  String.mk (b.flatMap (fun x => [hexDigit (x / 16 % 16), hexDigit (x % 16)]))

/-- The verb `%d` of `fmt` on an integer. -/
def fmtInt (i : Int) : String := toString i

/-- The function `binary.LittleEndian.Uint64`: it touches `b[7]` first, so a
slice shorter than 8 bytes makes it fail with an index out of range (`none`). -/
def littleEndianUint64 (b : Bytes) : Option Nat :=
  match b with
  | b0 :: b1 :: b2 :: b3 :: b4 :: b5 :: b6 :: b7 :: _ =>
    some (b0 + b1 * 2 ^ 8 + b2 * 2 ^ 16 + b3 * 2 ^ 24 + b4 * 2 ^ 32 + b5 * 2 ^ 40
      + b6 * 2 ^ 48 + b7 * 2 ^ 56)
  | _ => none

/-! ## `packages/apiv2/contract.go` -/

/-- One declared field of a contract (`script.FieldInfo`): its name, the text
`fitem.Type.String()` of its type (field `Type_`), and its tags. -/
structure FieldInfo where
  Name : String
  Type_ : String
  Tags : String
deriving DecidableEq

/-- The part of `script.ContractInfo` the handler reads: the contract id and
the declared fields (`Tx`, a pointer that may be nil). -/
structure ContractInfo where
  ID : Nat
  Tx : Option (List FieldInfo)
deriving DecidableEq

/-- The dynamic values handed to `converter.BinMarshal` by the handler. -/
inductive GoValue where
  | uint64 (v : Nat)
  | float64 (bits : Nat)
deriving DecidableEq

/-- The struct `tx.Header`. -/
structure Header where
  Type_ : Int
  Time : Int
  UserID : Int
  StateID : Int
  PublicKey : Bytes
  BinSignatures : Bytes
deriving DecidableEq

/-- The struct `tx.SmartContract`. -/
structure SmartContract where
  Header : Header
  TokenEcosystem : Int
  MaxSum : String
  PayOver : String
  Data : Bytes
deriving DecidableEq

/-- Functions and constants the handler takes from other packages.
`BinMarshal` and `EncodeLenInt64` receive the buffer and return its new
contents, as the Go functions do through their pointer argument. -/
structure Deps where
  EncodeLength : Int → Bytes
  BinMarshal : Bytes → GoValue → Bytes
  EncodeLenInt64 : Bytes → Int → Bytes
  EncodeLengthPlusData : Bytes → Bytes
  StringToAddress : String → Int
  Int64ToStr : Int → String
  ParseFloat : String → Option Nat
  Decimal : String
  Marshal : SmartContract → Except GoError Bytes
  SendTx : Int → Int → Bytes → Except GoError Bytes

/-- The parsed form `r.Form`, a map from keys to their values. -/
abbrev Form := List (String × List String)

/-- The method `r.FormValue`: the first value of the key, or the empty string. -/
def FormValue (form : Form) (key : String) : String :=
  match form.lookup key with
  | some (v :: _) => v
  | _ => ""

/-- The inner loops of the `[]interface {}` case: the values of every form key
equal to `name + "[]"`, collected in order. -/
def formList (form : Form) (name : String) : List String :=
  form.foldl (fun list kv => if kv.1 == name ++ "[]" then list ++ kv.2 else list) []

/-- The handler parameters `data.params`, together with `data.state` and
`data.wallet`. `pubkey` is `none` when the key is absent from the map; the
other parameters are read with a type assertion and so are present. -/
structure ApiData where
  state : Int
  wallet : Int
  pubkey : Option Bytes
  signature : Bytes
  time : String
  token_ecosystem : Int
  max_sum : String
  payover : String
deriving DecidableEq

/-- First argument of `errorAPI`: a string (an error code) or an error value. -/
inductive ErrArg where
  | text (s : String)
  | err (e : GoError)
deriving DecidableEq

/-- An error response written by `errorAPI(w, err, code, params...)`. -/
structure ApiError where
  err : ErrArg
  status : Nat
  params : List String
deriving DecidableEq

/-- The constant `http.StatusBadRequest`. -/
def StatusBadRequest : Nat := 400

/-- The constant `http.StatusInternalServerError`. -/
def StatusInternalServerError : Nat := 500

/-- What one run of the handler leaves behind: the value it returns (`none`
for nil), the envelope `toSerialize` when it was built, the calls made to
`model.SendTx` (type, wallet, bytes), and `data.result` (the hash). -/
structure Outcome where
  ret : Option ApiError
  toSerialize : Option SmartContract
  sent : List (Int × Int × Bytes)
  result : Option String
deriving DecidableEq

/-- State of the field loop after one field: go on with the next field, or
leave the loop through `break fields`. -/
inductive Step where
  | next (idata : Bytes)
  | stop (idata : Bytes)
deriving DecidableEq

/-- The value `val` of a field as the `switch` sees it (lines 85 to 88). -/
def fieldVal (d : Deps) (form : Form) (fitem : FieldInfo) : String :=
  let val := TrimSpace (FormValue form fitem.Name)
  if Contains fitem.Tags "address" then d.Int64ToStr (d.StringToAddress val) else val

/-- The encoding of the list elements (lines 100 to 103). -/
def appendList (d : Deps) : List String → Bytes → Bytes
  | [], idata => idata
  | ilist :: rest, idata =>
    appendList d rest ((idata ++ d.EncodeLength (strLen ilist)) ++ toBytes ilist)

/-- The body of the field loop (lines 85 to 135). -/
def encodeField (d : Deps) (form : Form) (fitem : FieldInfo) (idata : Bytes) : Step :=
  let val := fieldVal d form fitem
  if fitem.Type_ = "[]interface {}" then
    let list := formList form fitem.Name
    Step.next (appendList d list (idata ++ d.EncodeLength list.length))
  else if fitem.Type_ = "uint64" then
    let valInt := match ParseInt val with
      | some v => v
      | none => 0
    Step.next (d.BinMarshal idata (GoValue.uint64 (toUint64 valInt)))
  else if fitem.Type_ = "int64" then
    let valInt := match ParseInt val with
      | some v => v
      | none => 0
    Step.next (d.EncodeLenInt64 idata valInt)
  else if fitem.Type_ = "float64" then
    let valFloat := match d.ParseFloat val with
      | some v => v
      | none => 0
    Step.next (d.BinMarshal idata (GoValue.float64 valFloat))
  else if fitem.Type_ = "string" ∨ fitem.Type_ = d.Decimal then
    Step.next ((idata ++ d.EncodeLength (strLen val)) ++ toBytes val)
  else if fitem.Type_ = "[]uint8" then
    match hexDecodeString val with
    | none => Step.stop idata
    | some bytes => Step.next ((idata ++ d.EncodeLength bytes.length) ++ bytes)
  else Step.next idata

/-- The loop `fields:` over the declared fields (lines 83 to 136). -/
def encodeFields (d : Deps) (form : Form) : List FieldInfo → Bytes → Bytes
  | [], idata => idata
  | fitem :: rest, idata =>
    match encodeField d form fitem idata with
    | Step.next idata1 => encodeFields d form rest idata1
    | Step.stop idata1 => idata1

/-- The payload `idata` (lines 81 to 137). -/
def buildData (d : Deps) (form : Form) (info : ContractInfo) : Bytes :=
  match info.Tx with
  | none => []
  | some fields => encodeFields d form fields []

/-- The variable `publicKey` after lines 60 to 75; `none` when the handler
returns `E_EMPTYPUBLIC` instead. -/
def selectPublicKey (keyPublicKey : Bytes) (pubkey : Option Bytes) : Option Bytes :=
  if keyPublicKey.length = 0 then
    let publicKey : Bytes :=
      match pubkey with
      | some pk =>
        if pk.length > 0 then
          (if pk.length > 64 then pk.drop (pk.length - 64) else pk)
        else []
      | none => []
    if publicKey.length = 0 then none else some publicKey
  else some (toBytes "null")

/-- The handler `contract`. `validate` is what `validateSmartContract` returned
(the contract, or the error with `parerr`), `keyGet` what `key.Get(data.wallet)`
returned (the stored public key, or an error). -/
def contract (d : Deps) (validate : Except (GoError × String) ContractInfo)
    (keyGet : Except GoError Bytes) (form : Form) (data : ApiData) : Outcome :=
  match validate with
  | Except.error (err, parerr) =>
    if HasPrefix err "E_" then
      ⟨some ⟨ErrArg.text err, StatusBadRequest, [parerr]⟩, none, [], none⟩
    else ⟨some ⟨ErrArg.err err, StatusBadRequest, []⟩, none, [], none⟩
  | Except.ok info =>
    match keyGet with
    | Except.error err => ⟨some ⟨ErrArg.err err, StatusInternalServerError, []⟩, none, [], none⟩
    | Except.ok keyPublicKey =>
      match selectPublicKey keyPublicKey data.pubkey with
      | none => ⟨some ⟨ErrArg.text "E_EMPTYPUBLIC", StatusBadRequest, []⟩, none, [], none⟩
      | some publicKey =>
        if data.signature.length = 0 then
          ⟨some ⟨ErrArg.text "E_EMPTYSIGN", StatusBadRequest, []⟩, none, [], none⟩
        else
          let idata := buildData d form info
          let timeInt := match ParseInt data.time with
            | some t => t
            | none => 0
          let toSerialize : SmartContract :=
            { Header := { Type_ := (info.ID : Int), Time := timeInt, UserID := data.wallet,
                          StateID := data.state, PublicKey := publicKey,
                          BinSignatures := d.EncodeLengthPlusData data.signature },
              TokenEcosystem := data.token_ecosystem,
              MaxSum := data.max_sum,
              PayOver := data.payover,
              Data := idata }
          match d.Marshal toSerialize with
          | Except.error err =>
            ⟨some ⟨ErrArg.err err, StatusInternalServerError, []⟩, some toSerialize, [], none⟩
          | Except.ok serializedData =>
            let call : Int × Int × Bytes := (info.ID, data.wallet, 128 :: serializedData)
            match d.SendTx call.1 call.2.1 call.2.2 with
            | Except.error err =>
              ⟨some ⟨ErrArg.err err, StatusInternalServerError, []⟩, some toSerialize, [call], none⟩
            | Except.ok hash => ⟨none, some toSerialize, [call], some (hexEncodeToString hash)⟩

/-! ## `packages/parser/new_account.go` -/

/-- The fields of the embedded `*Parser` that `NewAccountParser` uses. The two
maps `TxMap` and `TxMaps.Bytes` are functions of the key; a missing key gives
the nil slice. -/
structure Parser where
  TxMap : String → Bytes
  TxMapsBytes : String → Bytes
  TxCitizenID : Int
  TxStateID : Int
  TxStateIDStr : String
  PublicKeys : List Bytes

/-- A value of type `interface{}` handed to `selectiveLoggingAndUpd`. -/
inductive SqlValue where
  | str (s : String)
  | int (i : Int)
deriving DecidableEq

/-- The arguments of one call of `selectiveLoggingAndUpd`, in order. -/
structure WriteCall where
  fields : List String
  values : List SqlValue
  table : String
  whereFields : List String
  whereValues : List String
  generalRollback : Bool
deriving DecidableEq

/-- Calls that reach the journal. -/
inductive Event where
  | upd (call : WriteCall)
  | rollback
deriving DecidableEq

/-- Methods of `Parser` and functions of `utils` that `NewAccountParser` calls,
over a storage state `σ`. A method with side effects returns its error (`none`
for nil) and the storage it leaves. `CheckSign` returns the pair of Go results
`(bool, error)`. -/
structure ParserDeps (σ : Type) where
  CheckSign : List Bytes → Bytes → Bytes → Bool → Bool × Option GoError
  ErrInfo : ErrArg → GoError
  Int64ToStr : Int → String
  selectiveLoggingAndUpd : WriteCall → σ → Option GoError × σ
  autoRollback : σ → Option GoError × σ

/-- Storage together with the record of the journal calls made so far. -/
structure World (σ : Type) where
  store : σ
  events : List Event

/-- The string `forSign` built by `fmt.Sprintf("%s,%s,%d,%d,%s", ...)` in
`Validate`, as bytes. -/
def forSign (p : Parser) : Bytes :=
  p.TxMap "type" ++ toBytes "," ++ p.TxMap "time" ++ toBytes ","
    ++ toBytes (fmtInt p.TxCitizenID) ++ toBytes "," ++ toBytes (fmtInt p.TxStateID)
    ++ toBytes "," ++ toBytes (hexEncodeToString (p.TxMapsBytes "pub"))

/-- The method `NewAccountParser.Validate`: the error returned and the parser
it leaves (`PublicKeys` grows by the transaction's key). -/
def Validate {σ : Type} (d : ParserDeps σ) (p : Parser) : Option GoError × Parser :=
  let p1 : Parser := { p with PublicKeys := p.PublicKeys ++ [p.TxMapsBytes "pub"] }
  let r := d.CheckSign p1.PublicKeys (forSign p1) (p1.TxMap "sign") false
  match r.2 with
  | some err => (some (d.ErrInfo (ErrArg.err err)), p1)
  | none =>
    if !r.1 then (some (d.ErrInfo (ErrArg.text "incorrect sign")), p1)
    else (none, p1)

/-- The method `p.selectiveLoggingAndUpd` with the call recorded. -/
def doUpd {σ : Type} (d : ParserDeps σ) (call : WriteCall) (w : World σ) :
    Option GoError × World σ :=
  let r := d.selectiveLoggingAndUpd call w.store
  (r.1, { store := r.2, events := w.events ++ [Event.upd call] })

/-- The method `p.autoRollback` with the call recorded. -/
def doRollback {σ : Type} (d : ParserDeps σ) (w : World σ) : Option GoError × World σ :=
  let r := d.autoRollback w.store
  (r.1, { store := r.2, events := w.events ++ [Event.rollback] })

/-- First write of `Action`: the wallet row. -/
def walletCall {σ : Type} (d : ParserDeps σ) (p : Parser) : WriteCall :=
  { fields := ["public_key_0"],
    values := [SqlValue.str (hexEncodeToString (p.TxMapsBytes "pub"))],
    table := "dlt_wallets",
    whereFields := ["wallet_id"],
    whereValues := [d.Int64ToStr p.TxCitizenID],
    generalRollback := true }

/-- Second write of `Action`: the accounts row. -/
def accountsCall (p : Parser) : WriteCall :=
  { fields := ["citizen_id", "amount"],
    values := [SqlValue.int p.TxCitizenID, SqlValue.int 0],
    table := p.TxStateIDStr ++ "_accounts",
    whereFields := [],
    whereValues := [],
    generalRollback := true }

/-- The method `NewAccountParser.Action`. -/
def Action {σ : Type} (d : ParserDeps σ) (p : Parser) (w : World σ) :
    Option GoError × World σ :=
  match doUpd d (walletCall d p) w with
  | (some err, w1) => (some (d.ErrInfo (ErrArg.err err)), w1)
  | (none, w1) =>
    match doUpd d (accountsCall p) w1 with
    | (some err, w2) => (some (d.ErrInfo (ErrArg.err err)), w2)
    | (none, w2) => (none, w2)

/-- The method `NewAccountParser.Rollback`. -/
def Rollback {σ : Type} (d : ParserDeps σ) (w : World σ) : Option GoError × World σ :=
  doRollback d w

/-! ## `packages/model/result.go` -/

/-- The struct `SingleResult`. -/
structure SingleResult where
  result : Bytes
  err : Option GoError
deriving DecidableEq

/-- What `DBConn.Raw(query, args...).Row().Scan(&result)` did: it reported
`sql.ErrNoRows`, another error, or it stored a value. -/
inductive ScanResult where
  | noRows
  | failed (err : GoError)
  | row (result : Bytes)
deriving DecidableEq

/-- The function `Single`; `args` is the text `%s` gives for the arguments. -/
def Single (query args : String) (scan : ScanResult) : SingleResult :=
  match scan with
  | ScanResult.noRows => ⟨[], none⟩
  | ScanResult.failed err => ⟨[], some (err ++ " in query " ++ query ++ " " ++ args)⟩
  | ScanResult.row result => ⟨result, none⟩

/-- The outcome of a Go call that either returns a value with an error, or
does not return because of a run-time panic. -/
inductive Ret (α : Type) where
  | returns (value : α) (err : Option GoError)
  | panics
deriving DecidableEq

/-- The method `SingleResult.Int64`; `BytesToInt64` is `converter.BytesToInt64`. -/
def SingleResult.Int64 (BytesToInt64 : Bytes → Int) (r : SingleResult) : Ret Int :=
  match r.err with
  | some e => Ret.returns 0 (some e)
  | none => Ret.returns (BytesToInt64 r.result) none

/-- The method `SingleResult.Int`; `BytesToInt` is `converter.BytesToInt`. -/
def SingleResult.Int (BytesToInt : Bytes → Int) (r : SingleResult) : Ret Int :=
  match r.err with
  | some e => Ret.returns 0 (some e)
  | none => Ret.returns (BytesToInt r.result) none

/-- The method `SingleResult.Float64`; the float is given by its bit pattern,
which is what `math.Float64frombits` receives. -/
def SingleResult.Float64 (r : SingleResult) : Ret Nat :=
  match r.err with
  | some e => Ret.returns 0 (some e)
  | none =>
    match littleEndianUint64 r.result with
    | some bits => Ret.returns bits none
    | none => Ret.panics

/-- The method `SingleResult.String`; the string is given by its bytes. -/
def SingleResult.String (r : SingleResult) : Ret Bytes :=
  match r.err with
  | some e => Ret.returns [] (some e)
  | none => Ret.returns r.result none

/-- The method `SingleResult.Bytes`. -/
def SingleResult.Bytes (r : SingleResult) : Ret Bytes :=
  match r.err with
  | some e => Ret.returns [] (some e)
  | none => Ret.returns r.result none

/-! ## Concrete instances

The parameters are instantiated here so that the embedded functions can be
evaluated on examples. The instances follow the descriptions of the codec
(minimal big-endian length, fixed 8-byte integers, little-endian floats); the
general theorems below do not depend on them. -/

/-- Big-endian bytes of `v` without leading zero bytes. -/
def bigEndianMin (v : Nat) : Bytes := (Nat.digits 256 v).reverse

/-- The 8 bytes of `v`, most significant first. -/
def bigEndian8 (v : Nat) : Bytes :=
  [v / 2 ^ 56 % 256, v / 2 ^ 48 % 256, v / 2 ^ 40 % 256, v / 2 ^ 32 % 256,
   v / 2 ^ 24 % 256, v / 2 ^ 16 % 256, v / 2 ^ 8 % 256, v % 256]

/-- A length encoding: one byte up to 127, else a count byte and the minimal
big-endian bytes. -/
def exampleEncodeLength (n : Int) : Bytes :=
  if 0 ≤ n ∧ n ≤ 127 then [n.toNat]
  else (128 + (bigEndianMin (toUint64 n)).length) :: bigEndianMin (toUint64 n)

/-- An instance of `Deps`: big-endian `uint64`, little-endian float bits, an
address that is a plain number, a float parser that knows the text "0" only, a
serialization that concatenates key, signatures and payload, and a `SendTx`
that answers with a one-byte hash. -/
def exampleDeps : Deps where
  EncodeLength := exampleEncodeLength
  BinMarshal := fun out v =>
    match v with
    | GoValue.uint64 x => out ++ bigEndian8 x
    | GoValue.float64 bits => out ++ (bigEndian8 bits).reverse
  EncodeLenInt64 := fun out x =>
    out ++ (bigEndianMin (toUint64 x)).length :: bigEndianMin (toUint64 x)
  EncodeLengthPlusData := fun b => exampleEncodeLength b.length ++ b
  StringToAddress := fun s =>
    match ParseInt s with
    | some v => v
    | none => 0
  Int64ToStr := fmtInt
  ParseFloat := fun s => if s = "0" then some 0 else none
  Decimal := "decimal.Decimal"
  Marshal := fun sc =>
    Except.ok (sc.Header.PublicKey ++ sc.Header.BinSignatures ++ sc.Data)
  SendTx := fun _ _ b => Except.ok [b.length % 256]

/-- Parameters of an example request. -/
def exampleData : ApiData where
  state := 1
  wallet := 5
  pubkey := some [1, 2, 3]
  signature := [7, 7]
  time := "1000"
  token_ecosystem := 1
  max_sum := ""
  payover := ""

/-- A contract with three declared fields, the middle one raw bytes. -/
def exampleInfo : ContractInfo where
  ID := 258
  Tx := some [⟨"name", "string", ""⟩, ⟨"blob", "[]uint8", ""⟩, ⟨"note", "string", ""⟩]

/-- A form whose `blob` value is not hexadecimal. -/
def badHexForm : Form := [("name", ["ab"]), ("blob", ["zz"]), ("note", ["cd"])]

/-- A form for the fields `amount`, `blob`, `note` and the list `tags`. -/
def exampleForm : Form :=
  [("amount", ["notanumber"]), ("name", [" ab "]), ("blob", ["0aff"]),
   ("tags[]", ["x", "yz"])]

/-- A parser state for a new-account transaction of user 5 in state 1. -/
def exampleParser : Parser where
  TxMap := fun k =>
    if k = "type" then toBytes "1"
    else if k = "time" then toBytes "1000"
    else if k = "sign" then [9, 9]
    else []
  TxMapsBytes := fun k => if k = "pub" then [171, 205] else []
  TxCitizenID := 5
  TxStateID := 1
  TxStateIDStr := "1"
  PublicKeys := []

/-- An instance of `ParserDeps` over a storage that is the list of rows
written. A write to the table `failing` fails and writes nothing; the gate
accepts the signature `good` and rejects an empty signature as malformed;
`autoRollback` removes every row. -/
def exampleParserDeps (failing : String) (good : Bytes) : ParserDeps (List WriteCall) where
  CheckSign := fun _ _ sign _ =>
    if sign = [] then (false, some "incorrect length of signature")
    else (decide (sign = good), none)
  ErrInfo := fun e =>
    match e with
    | ErrArg.text s => "[ERROR] " ++ s
    | ErrArg.err s => "[ERROR] " ++ s
  Int64ToStr := fmtInt
  selectiveLoggingAndUpd := fun call store =>
    if call.table = failing then (some "write failed", store) else (none, store ++ [call])
  autoRollback := fun _ => (none, [])

/-- An instance of `Deps` that differs from `exampleDeps` in `StringToAddress`
only: a wallet address written as groups of digits separated by dashes is read
as the number its digits spell (0 when they spell none). -/
def addressDeps : Deps :=
  { exampleDeps with
    StringToAddress := fun s =>
      match ParseInt (String.mk (s.data.filter (fun c => c != '-'))) with
      | some v => v
      | none => 0 }

/-- A form whose value for `to` is a wallet address, not a number. -/
def addressForm : Form := [("to", [" 0000-0000-0000-0000-0019 "])]

/-! ## Auxiliary facts -/

theorem appendList_eq (d : Deps) (l : List String) (idata : Bytes) :
    appendList d l idata
      = idata ++ l.flatMap (fun e => d.EncodeLength (strLen e) ++ toBytes e) := by
  induction l generalizing idata with
  | nil => simp [appendList]
  | cons e rest ih => simp [appendList, ih, List.append_assoc]

theorem foldl_absent_key (k : String) (form : Form) (acc : List String)
    (h : k ∉ form.map Prod.fst) :
    form.foldl (fun list kv => if kv.1 == k then list ++ kv.2 else list) acc = acc := by
  induction form generalizing acc with
  | nil => rfl
  | cons kv rest ih =>
    simp only [List.map_cons, List.mem_cons, not_or] at h
    have hne : (kv.1 == k) = false := by
      simpa using fun e => h.1 e.symm
    simp only [List.foldl_cons, hne]
    exact ih acc h.2

theorem foldl_present_key (k : String) (form : Form) (acc es : List String)
    (hnd : (form.map Prod.fst).Nodup) (hl : form.lookup k = some es) :
    form.foldl (fun list kv => if kv.1 == k then list ++ kv.2 else list) acc = acc ++ es := by
  induction form generalizing acc with
  | nil => simp at hl
  | cons kv rest ih =>
    obtain ⟨key, vs⟩ := kv
    simp only [List.map_cons, List.nodup_cons] at hnd
    by_cases hk : k = key
    · subst hk
      simp only [List.lookup_cons, beq_self_eq_true, Option.some.injEq] at hl
      subst hl
      simp only [List.foldl_cons, beq_self_eq_true, if_true]
      exact foldl_absent_key k rest (acc ++ vs) hnd.1
    · have h1 : (k == key) = false := by simpa using hk
      have h2 : (key == k) = false := by simpa using fun e => hk e.symm
      simp only [List.lookup_cons, h1] at hl
      simp only [List.foldl_cons, h2]
      exact ih acc hnd.2 hl

theorem formList_of_lookup (form : Form) (name : String) (es : List String)
    (hnd : (form.map Prod.fst).Nodup) (hl : form.lookup (name ++ "[]") = some es) :
    formList form name = es := by
  have := foldl_present_key (name ++ "[]") form [] es hnd hl
  simpa [formList] using this

/-! ## Claims on the field loop of `contract` -/

/-- C2 amended: in the field loop, a declared `uint64`, `int64` or `float64`
field whose value `val` does not parse is encoded exactly as the value 0 of its
kind, the step does not leave the loop, and the loop goes on with the next
declared field; a field whose value parses to 0 gives the very same buffer.
Here `val` is the text the `switch` parses: the trimmed form value for a field
without the `address` tag, and for a field with the tag the text
`Int64ToStr(StringToAddress(..))` of the trimmed form value. -/
theorem numeric_parse_failure_encodes_zero (d : Deps) (form : Form) (fitem : FieldInfo)
    (rest : List FieldInfo) (idata : Bytes) :
    (fitem.Type_ = "uint64" → ParseInt (fieldVal d form fitem) = none →
      encodeField d form fitem idata = Step.next (d.BinMarshal idata (GoValue.uint64 0))
      ∧ encodeFields d form (fitem :: rest) idata
          = encodeFields d form rest (d.BinMarshal idata (GoValue.uint64 0))
      ∧ ∀ form0, ParseInt (fieldVal d form0 fitem) = some 0 →
          encodeField d form0 fitem idata = encodeField d form fitem idata)
    ∧ (fitem.Type_ = "int64" → ParseInt (fieldVal d form fitem) = none →
      encodeField d form fitem idata = Step.next (d.EncodeLenInt64 idata 0)
      ∧ encodeFields d form (fitem :: rest) idata
          = encodeFields d form rest (d.EncodeLenInt64 idata 0)
      ∧ ∀ form0, ParseInt (fieldVal d form0 fitem) = some 0 →
          encodeField d form0 fitem idata = encodeField d form fitem idata)
    ∧ (fitem.Type_ = "float64" → d.ParseFloat (fieldVal d form fitem) = none →
      encodeField d form fitem idata = Step.next (d.BinMarshal idata (GoValue.float64 0))
      ∧ encodeFields d form (fitem :: rest) idata
          = encodeFields d form rest (d.BinMarshal idata (GoValue.float64 0))
      ∧ ∀ form0, d.ParseFloat (fieldVal d form0 fitem) = some 0 →
          encodeField d form0 fitem idata = encodeField d form fitem idata)
    ∧ (Contains fitem.Tags "address" = false →
      fieldVal d form fitem = TrimSpace (FormValue form fitem.Name))
    ∧ (Contains fitem.Tags "address" = true →
      fieldVal d form fitem
        = d.Int64ToStr (d.StringToAddress (TrimSpace (FormValue form fitem.Name)))) := by
  have z : toUint64 0 = 0 := by decide
  refine ⟨?_, ?_, ?_, ?_, ?_⟩
  · intro ht hp
    have e1 : encodeField d form fitem idata
        = Step.next (d.BinMarshal idata (GoValue.uint64 0)) := by
      simp [encodeField, ht, hp, z]
    refine ⟨e1, ?_, ?_⟩
    · simp [encodeFields, e1]
    · intro form0 h0
      rw [e1]
      simp [encodeField, ht, h0, z]
  · intro ht hp
    have e1 : encodeField d form fitem idata = Step.next (d.EncodeLenInt64 idata 0) := by
      simp [encodeField, ht, hp]
    refine ⟨e1, ?_, ?_⟩
    · simp [encodeFields, e1]
    · intro form0 h0
      rw [e1]
      simp [encodeField, ht, h0]
  · intro ht hp
    have e1 : encodeField d form fitem idata
        = Step.next (d.BinMarshal idata (GoValue.float64 0)) := by
      simp [encodeField, ht, hp]
    refine ⟨e1, ?_, ?_⟩
    · simp [encodeFields, e1]
    · intro form0 h0
      rw [e1]
      simp [encodeField, ht, h0]
  · intro ha
    simp [fieldVal, ha]
  · intro ha
    simp [fieldVal, ha]

/-- C2 amended, at the field `amount:uint64` with the form value "notanumber". -/
theorem numeric_parse_failure_encodes_zero_witness :
    ParseInt (fieldVal exampleDeps exampleForm ⟨"amount", "uint64", ""⟩) = none
    ∧ encodeField exampleDeps exampleForm ⟨"amount", "uint64", ""⟩ [1]
        = Step.next (exampleDeps.BinMarshal [1] (GoValue.uint64 0))
    ∧ exampleDeps.BinMarshal [1] (GoValue.uint64 0) = [1, 0, 0, 0, 0, 0, 0, 0, 0] :=
  ⟨by decide,
   ((numeric_parse_failure_encodes_zero exampleDeps exampleForm ⟨"amount", "uint64", ""⟩
      [] [1]).1 rfl (by decide)).1,
   by decide⟩

/-- C2 as stated fails on a field tagged `address`: the trimmed form value
"0000-0000-0000-0000-0019" does not parse as a number, yet the `int64` field is
encoded as 19 and the `uint64` field as 19, not as 0, because the text parsed
is that of the converted address. -/
theorem address_tagged_numeric_field_is_not_zeroed :
    TrimSpace (FormValue addressForm "to") = "0000-0000-0000-0000-0019"
    ∧ ParseInt (TrimSpace (FormValue addressForm "to")) = none
    ∧ fieldVal addressDeps addressForm ⟨"to", "int64", "address"⟩ = "19"
    ∧ encodeField addressDeps addressForm ⟨"to", "int64", "address"⟩ []
        = Step.next (addressDeps.EncodeLenInt64 [] 19)
    ∧ addressDeps.EncodeLenInt64 [] 19 = [1, 19]
    ∧ addressDeps.EncodeLenInt64 [] 0 = [0]
    ∧ encodeField addressDeps addressForm ⟨"to", "int64", "address"⟩ []
        ≠ Step.next (addressDeps.EncodeLenInt64 [] 0)
    ∧ encodeField addressDeps addressForm ⟨"to", "uint64", "address"⟩ []
        = Step.next (addressDeps.BinMarshal [] (GoValue.uint64 19))
    ∧ addressDeps.BinMarshal [] (GoValue.uint64 19) = [0, 0, 0, 0, 0, 0, 0, 19]
    ∧ encodeField addressDeps addressForm ⟨"to", "uint64", "address"⟩ []
        ≠ Step.next (addressDeps.BinMarshal [] (GoValue.uint64 0)) := by
  have h19 : addressDeps.EncodeLenInt64 [] 19 = [1, 19] := by
    have h : toUint64 19 = 19 := by decide
    have hd : bigEndianMin 19 = [19] := by norm_num [bigEndianMin]
    show [] ++ (bigEndianMin (toUint64 19)).length :: bigEndianMin (toUint64 19) = [1, 19]
    rw [h, hd]
    rfl
  have h0 : addressDeps.EncodeLenInt64 [] 0 = [0] := by
    have h : toUint64 0 = 0 := by decide
    have hd : bigEndianMin 0 = [] := by norm_num [bigEndianMin]
    show [] ++ (bigEndianMin (toUint64 0)).length :: bigEndianMin (toUint64 0) = [0]
    rw [h, hd]
    rfl
  have hv : ParseInt (fieldVal addressDeps addressForm ⟨"to", "int64", "address"⟩)
      = some 19 := by
    decide
  have he : encodeField addressDeps addressForm ⟨"to", "int64", "address"⟩ []
      = Step.next (addressDeps.EncodeLenInt64 [] 19) := by
    simp [encodeField, hv]
  refine ⟨by decide, by decide, by decide, he, h19, h0, ?_, by decide, by decide, by decide⟩
  rw [he, h19, h0]
  decide

/-- C4: every variable-length kind is a length followed by that many bytes.
With `script.Decimal` distinct from the case labels that precede it:
a `string` or decimal field without the `address` tag appends
`EncodeLength(|b|) ++ b`, `b` the bytes of the trimmed form value; a `[]uint8`
field whose value `val` is valid hex appends `EncodeLength(|d|) ++ d`, `d` the
decoded bytes; a list field appends `EncodeLength(k)` followed by
`EncodeLength(|e|) ++ e` for each of the `k` values under `name[]`, in order. -/
theorem variable_length_fields_are_length_prefixed (d : Deps) (form : Form)
    (fitem : FieldInfo) (idata : Bytes)
    (hdec : d.Decimal ∉ ["[]interface {}", "uint64", "int64", "float64", "[]uint8"]) :
    ((fitem.Type_ = "string" ∨ fitem.Type_ = d.Decimal) →
      Contains fitem.Tags "address" = false →
      encodeField d form fitem idata
        = Step.next (idata
            ++ (d.EncodeLength ((toBytes (TrimSpace (FormValue form fitem.Name))).length : Nat)
            ++ toBytes (TrimSpace (FormValue form fitem.Name)))))
    ∧ (∀ dec : Bytes, fitem.Type_ = "[]uint8" →
      hexDecodeString (fieldVal d form fitem) = some dec →
      encodeField d form fitem idata
        = Step.next (idata ++ (d.EncodeLength (dec.length : Nat) ++ dec)))
    ∧ (fitem.Type_ = "[]interface {}" →
      encodeField d form fitem idata
        = Step.next (idata ++ (d.EncodeLength ((formList form fitem.Name).length : Nat)
            ++ (formList form fitem.Name).flatMap
                (fun e => d.EncodeLength ((toBytes e).length : Nat) ++ toBytes e))))
    ∧ (∀ es : List String, (form.map Prod.fst).Nodup →
      form.lookup (fitem.Name ++ "[]") = some es → formList form fitem.Name = es) := by
  simp only [List.mem_cons, List.mem_singleton, List.not_mem_nil, or_false, not_or] at hdec
  obtain ⟨h1, h2, h3, h4, h5⟩ := hdec
  refine ⟨?_, ?_, ?_, ?_⟩
  · intro ht ha
    have hv : fieldVal d form fitem = TrimSpace (FormValue form fitem.Name) := by
      simp [fieldVal, ha]
    have n1 : fitem.Type_ ≠ "[]interface {}" := by
      rcases ht with ht | ht <;> rw [ht]
      · decide
      · exact h1
    have n2 : fitem.Type_ ≠ "uint64" := by
      rcases ht with ht | ht <;> rw [ht]
      · decide
      · exact h2
    have n3 : fitem.Type_ ≠ "int64" := by
      rcases ht with ht | ht <;> rw [ht]
      · decide
      · exact h3
    have n4 : fitem.Type_ ≠ "float64" := by
      rcases ht with ht | ht <;> rw [ht]
      · decide
      · exact h4
    unfold encodeField
    simp only [n1, n2, n3, n4, if_false, ht, if_true, hv, strLen, List.append_assoc]
  · intro dec ht hd
    have n5 : ¬ ("[]uint8" = d.Decimal) := fun e => h5 e.symm
    simp [encodeField, ht, hd, n5, List.append_assoc]
  · intro ht
    simp [encodeField, ht, appendList_eq, strLen, List.append_assoc]
  · intro es hnd hl
    exact formList_of_lookup form fitem.Name es hnd hl

/-- C4 at a string field (trimmed to "ab"), a hex field and a list field. -/
theorem variable_length_fields_are_length_prefixed_witness :
    encodeField exampleDeps exampleForm ⟨"name", "string", ""⟩ [9] = Step.next [9, 2, 97, 98]
    ∧ encodeField exampleDeps exampleForm ⟨"blob", "[]uint8", ""⟩ [9]
        = Step.next [9, 2, 10, 255]
    ∧ encodeField exampleDeps exampleForm ⟨"tags", "[]interface {}", ""⟩ [9]
        = Step.next [9, 2, 1, 120, 2, 121, 122] :=
  have h := variable_length_fields_are_length_prefixed exampleDeps exampleForm
  ⟨((h ⟨"name", "string", ""⟩ [9] (by decide)).1 (Or.inl rfl) (by decide)).trans (by decide),
   ((h ⟨"blob", "[]uint8", ""⟩ [9] (by decide)).2.1 [10, 255] rfl (by decide)).trans
     (by decide),
   ((h ⟨"tags", "[]interface {}", ""⟩ [9] (by decide)).2.2.1 rfl).trans (by decide)⟩

/-! ## Claims on the authorization checks of `contract` -/

theorem selectPublicKey_cases (keyPublicKey : Bytes) (pubkey : Option Bytes) :
    selectPublicKey keyPublicKey pubkey =
      if keyPublicKey = [] then
        match pubkey with
        | none => none
        | some pk =>
          if pk = [] then none
          else some (if 64 < pk.length then pk.drop (pk.length - 64) else pk)
      else some [110, 117, 108, 108] := by
  unfold selectPublicKey
  by_cases hk : keyPublicKey = []
  · subst hk
    cases pubkey with
    | none => simp
    | some pk =>
      by_cases hp : pk = []
      · subst hp; simp
      · have hpos : pk.length > 0 := List.length_pos.mpr hp
        by_cases h64 : 64 < pk.length
        · have h1 : pk.length - (pk.length - 64) ≠ 0 := by omega
          simp [hp, hpos, h64, h1]
        · have h1 : pk.length ≠ 0 := by omega
          simp [hp, hpos, h64, h1]
  · have h1 : keyPublicKey.length ≠ 0 := fun e => hk (List.length_eq_zero.mp e)
    simp only [h1, hk, if_false]
    decide

/-- C5: a request without authorization material is rejected before anything
is submitted. Once the contract is validated and the key lookup succeeded: when
the stored key is empty and `pubkey` is absent or empty the handler returns
`E_EMPTYPUBLIC` with status 400; otherwise, when `signature` is empty, it
returns `E_EMPTYSIGN` with status 400. In both cases, whatever the validation
and the key lookup returned, `model.SendTx` is not called and `data.result`
stays unset. -/
theorem missing_authorization_is_rejected (d : Deps) (info : ContractInfo)
    (keyPublicKey : Bytes) (form : Form) (data : ApiData) :
    (keyPublicKey = [] → (data.pubkey = none ∨ data.pubkey = some []) →
      contract d (Except.ok info) (Except.ok keyPublicKey) form data
        = ⟨some ⟨ErrArg.text "E_EMPTYPUBLIC", 400, []⟩, none, [], none⟩)
    ∧ (¬ (keyPublicKey = [] ∧ (data.pubkey = none ∨ data.pubkey = some [])) →
      data.signature = [] →
      contract d (Except.ok info) (Except.ok keyPublicKey) form data
        = ⟨some ⟨ErrArg.text "E_EMPTYSIGN", 400, []⟩, none, [], none⟩)
    ∧ (∀ validate keyGet,
      (keyGet = Except.ok [] ∧ (data.pubkey = none ∨ data.pubkey = some []))
        ∨ data.signature = [] →
      (contract d validate keyGet form data).sent = []
      ∧ (contract d validate keyGet form data).result = none
      ∧ (contract d validate keyGet form data).ret ≠ none) := by
  refine ⟨?_, ?_, ?_⟩
  · intro hk hp
    subst hk
    rcases hp with hp | hp <;>
      simp [contract, selectPublicKey, hp, StatusBadRequest]
  · intro hn hs
    have hsel : ∃ pk, selectPublicKey keyPublicKey data.pubkey = some pk := by
      rw [selectPublicKey_cases]
      by_cases hk : keyPublicKey = []
      · have hp : ¬ (data.pubkey = none ∨ data.pubkey = some []) := fun h => hn ⟨hk, h⟩
        cases hpk : data.pubkey with
        | none => exact absurd (Or.inl hpk) hp
        | some pk =>
          have hne : pk ≠ [] := fun e => hp (Or.inr (by rw [hpk, e]))
          simp [hk, hne]
      · simp [hk]
    obtain ⟨pk, hpk⟩ := hsel
    simp [contract, hpk, hs, StatusBadRequest]
  · intro validate keyGet h
    unfold contract
    rcases h with ⟨hk, hp⟩ | hs
    · subst hk
      rcases validate with ⟨err, parerr⟩ | info
      · dsimp only
        split <;> simp
      · rcases hp with hp | hp <;> simp [selectPublicKey, hp]
    · rcases validate with ⟨err, parerr⟩ | info
      · dsimp only
        split <;> simp
      · rcases keyGet with err | keyPub
        · simp
        · dsimp only
          split <;> simp [hs]

/-- C5 on a request without stored key and without `pubkey`, and on a request
with a stored key and an empty signature. -/
theorem missing_authorization_is_rejected_witness :
    contract exampleDeps (Except.ok exampleInfo) (Except.ok []) exampleForm
        { exampleData with pubkey := none }
      = ⟨some ⟨ErrArg.text "E_EMPTYPUBLIC", 400, []⟩, none, [], none⟩
    ∧ contract exampleDeps (Except.ok exampleInfo) (Except.ok [4, 2]) exampleForm
        { exampleData with signature := [] }
      = ⟨some ⟨ErrArg.text "E_EMPTYSIGN", 400, []⟩, none, [], none⟩ :=
  ⟨(missing_authorization_is_rejected exampleDeps exampleInfo [] exampleForm
      { exampleData with pubkey := none }).1 rfl (Or.inl rfl),
   (missing_authorization_is_rejected exampleDeps exampleInfo [4, 2] exampleForm
      { exampleData with signature := [] }).2.1 (by decide) rfl⟩

theorem toSerialize_public_key (d : Deps)
    (validate : Except (GoError × String) ContractInfo) (keyGet : Except GoError Bytes)
    (form : Form) (data : ApiData) (sc : SmartContract)
    (h : (contract d validate keyGet form data).toSerialize = some sc) :
    ∃ keyPublicKey, keyGet = Except.ok keyPublicKey
      ∧ selectPublicKey keyPublicKey data.pubkey = some sc.Header.PublicKey := by
  unfold contract at h
  rcases validate with ⟨err, parerr⟩ | info
  · dsimp only at h
    split at h <;> simp at h
  · rcases keyGet with err | keyPub
    · simp at h
    · refine ⟨keyPub, rfl, ?_⟩
      dsimp only at h
      cases hsel : selectPublicKey keyPub data.pubkey with
      | none => rw [hsel] at h; simp at h
      | some publicKey =>
        rw [hsel] at h
        dsimp only at h
        split at h
        · simp at h
        · split at h
          · simp only [Option.some.injEq] at h
            rw [← h]
          · split at h <;>
            · simp only [Option.some.injEq] at h
              rw [← h]

/-- C9: whenever the envelope is built, the public key of its header is not
empty and has at most 64 bytes. The key lookup succeeded; with a non-empty
stored key the header holds the four bytes of "null" whatever `pubkey` is;
with an empty stored key `pubkey` is present and the header holds it when it has
at most 64 bytes, and its last 64 bytes when it is longer. -/
theorem envelope_public_key (d : Deps) (validate : Except (GoError × String) ContractInfo)
    (keyGet : Except GoError Bytes) (form : Form) (data : ApiData) (sc : SmartContract)
    (h : (contract d validate keyGet form data).toSerialize = some sc) :
    sc.Header.PublicKey ≠ [] ∧ sc.Header.PublicKey.length ≤ 64
    ∧ ∃ keyPublicKey, keyGet = Except.ok keyPublicKey
      ∧ (keyPublicKey ≠ [] → sc.Header.PublicKey = [110, 117, 108, 108])
      ∧ (keyPublicKey = [] → ∃ pk, data.pubkey = some pk
          ∧ (pk.length ≤ 64 → sc.Header.PublicKey = pk)
          ∧ (64 < pk.length → sc.Header.PublicKey = pk.drop (pk.length - 64)
              ∧ sc.Header.PublicKey.length = 64
              ∧ ∃ front, pk = front ++ sc.Header.PublicKey)) := by
  obtain ⟨keyPub, hk, hsel⟩ := toSerialize_public_key d validate keyGet form data sc h
  rw [selectPublicKey_cases] at hsel
  by_cases hk0 : keyPub = []
  · simp only [hk0, if_true] at hsel
    cases hpk : data.pubkey with
    | none => rw [hpk] at hsel; simp at hsel
    | some pk =>
      rw [hpk] at hsel
      dsimp only at hsel
      by_cases hp : pk = []
      · simp [hp] at hsel
      · simp only [hp, if_false, Option.some.injEq] at hsel
        have hpos : 0 < pk.length := List.length_pos.mpr hp
        by_cases h64 : 64 < pk.length
        · simp only [h64, if_true] at hsel
          have hlen : sc.Header.PublicKey.length = 64 := by
            rw [← hsel, List.length_drop]; omega
          refine ⟨?_, by omega, keyPub, hk, fun hne => absurd hk0 hne, fun _ => ⟨pk, rfl, ?_, ?_⟩⟩
          · intro e
            rw [e] at hlen
            simp at hlen
          · intro hle
            omega
          · intro _
            refine ⟨hsel.symm, hlen, pk.take (pk.length - 64), ?_⟩
            rw [← hsel, List.take_append_drop]
        · simp only [h64, if_false] at hsel
          refine ⟨?_, ?_, keyPub, hk, fun hne => absurd hk0 hne, fun _ => ⟨pk, rfl, ?_, ?_⟩⟩
          · rw [← hsel]; exact hp
          · rw [← hsel]; omega
          · intro _; exact hsel.symm
          · intro hgt; exact absurd hgt h64
  · simp only [hk0, if_false, Option.some.injEq] at hsel
    refine ⟨?_, ?_, keyPub, hk, fun _ => hsel.symm, fun e => absurd e hk0⟩
    · rw [← hsel]; decide
    · rw [← hsel]; decide

/-- C9 on a request whose `pubkey` has 65 bytes: the header keeps the last 64. -/
theorem envelope_public_key_witness :
    (contract exampleDeps (Except.ok exampleInfo) (Except.ok []) exampleForm
        { exampleData with pubkey := some (200 :: List.replicate 64 7) }).toSerialize
      = some ⟨⟨258, 1000, 5, 1, List.replicate 64 7, [2, 7, 7]⟩, 1, "", "",
          [2, 97, 98, 2, 10, 255, 0]⟩
    ∧ (List.replicate 64 7 ≠ ([] : Bytes) ∧ (List.replicate 64 7).length ≤ 64) :=
  ⟨by decide,
   (envelope_public_key exampleDeps (Except.ok exampleInfo) (Except.ok []) exampleForm
      { exampleData with pubkey := some (200 :: List.replicate 64 7) }
      ⟨⟨258, 1000, 5, 1, List.replicate 64 7, [2, 7, 7]⟩, 1, "", "",
          [2, 97, 98, 2, 10, 255, 0]⟩ (by decide)).1,
   (envelope_public_key exampleDeps (Except.ok exampleInfo) (Except.ok []) exampleForm
      { exampleData with pubkey := some (200 :: List.replicate 64 7) }
      ⟨⟨258, 1000, 5, 1, List.replicate 64 7, [2, 7, 7]⟩, 1, "", "",
          [2, 97, 98, 2, 10, 255, 0]⟩ (by decide)).2.1⟩

/-! ## The handler after the field loop -/

/-- A `[]uint8` field whose value is not hexadecimal ends the field loop: the
payload is what the fields before it produced, later fields are skipped. -/
theorem encodeFields_stops_at_bad_hex (d : Deps) (form : Form) (fitem : FieldInfo)
    (rest : List FieldInfo) (idata : Bytes) (ht : fitem.Type_ = "[]uint8")
    (hdec : d.Decimal ≠ "[]uint8") (hbad : hexDecodeString (fieldVal d form fitem) = none) :
    encodeFields d form (fitem :: rest) idata = idata := by
  have n5 : ¬ ("[]uint8" = d.Decimal) := fun e => hdec e.symm
  have e1 : encodeField d form fitem idata = Step.stop idata := by
    simp [encodeField, ht, hbad, n5]
  simp [encodeFields, e1]

/-- Once the authorization checks are passed, the handler has two error
returns left, a failed `msgpack.Marshal` and a failed `model.SendTx`: when both
succeed it submits the envelope holding whatever payload the field loop left
and returns nil. -/
theorem contract_submits_after_field_loop (d : Deps) (info : ContractInfo)
    (keyPublicKey publicKey : Bytes) (form : Form) (data : ApiData) (ser hash : Bytes)
    (hsel : selectPublicKey keyPublicKey data.pubkey = some publicKey)
    (hsig : data.signature ≠ [])
    (hm : d.Marshal
        { Header := { Type_ := (info.ID : Int),
                      Time := (match ParseInt data.time with
                        | some t => t
                        | none => 0),
                      UserID := data.wallet, StateID := data.state, PublicKey := publicKey,
                      BinSignatures := d.EncodeLengthPlusData data.signature },
          TokenEcosystem := data.token_ecosystem, MaxSum := data.max_sum,
          PayOver := data.payover, Data := buildData d form info } = Except.ok ser)
    (hs : d.SendTx (info.ID : Int) data.wallet (128 :: ser) = Except.ok hash) :
    (contract d (Except.ok info) (Except.ok keyPublicKey) form data).ret = none
    ∧ (contract d (Except.ok info) (Except.ok keyPublicKey) form data).sent
        = [((info.ID : Int), data.wallet, 128 :: ser)]
    ∧ (contract d (Except.ok info) (Except.ok keyPublicKey) form data).result
        = some (hexEncodeToString hash) := by
  have hlen : data.signature.length ≠ 0 := fun e => hsig (List.length_eq_zero.mp e)
  simp [contract, hsel, hlen, hm, hs]

/-- C1, the handler evaluated on a request whose declared `[]uint8` field
`blob` has the form value "zz": the value is not valid hexadecimal, the loop
stops after the field `name`, and the handler returns nil after one call of
`model.SendTx` with the envelope built from the partial payload (the field
`name` alone), setting `data.result`. -/
theorem bad_hex_field_is_still_submitted :
    hexDecodeString (fieldVal exampleDeps badHexForm ⟨"blob", "[]uint8", ""⟩) = none
    ∧ contract exampleDeps (Except.ok exampleInfo) (Except.ok []) badHexForm exampleData
      = ⟨none,
         some ⟨⟨258, 1000, 5, 1, [1, 2, 3], [2, 7, 7]⟩, 1, "", "", [2, 97, 98]⟩,
         [(258, 5, [128, 1, 2, 3, 2, 7, 7, 2, 97, 98])],
         some "0a"⟩ := by
  decide

/-- C3, the field loop evaluated on the declared field `amount:uint64` with the
form value "9223372036854775808" (2^63, inside the unsigned range): the signed
parse fails, so the value handed to `BinMarshal` is 0 and not 2^63. -/
theorem uint64_field_above_int64_range_encodes_zero :
    ParseInt (fieldVal exampleDeps [("amount", ["9223372036854775808"])]
        ⟨"amount", "uint64", ""⟩) = none
    ∧ encodeField exampleDeps [("amount", ["9223372036854775808"])]
        ⟨"amount", "uint64", ""⟩ []
      = Step.next (exampleDeps.BinMarshal [] (GoValue.uint64 0))
    ∧ exampleDeps.BinMarshal [] (GoValue.uint64 0) = [0, 0, 0, 0, 0, 0, 0, 0]
    ∧ exampleDeps.BinMarshal [] (GoValue.uint64 9223372036854775808)
      = [128, 0, 0, 0, 0, 0, 0, 0] := by
  decide

/-! ## Claims on `NewAccountParser` -/

theorem toBytes_append (a b : String) : toBytes (a ++ b) = toBytes a ++ toBytes b := by
  simp [toBytes, String.data_append]

theorem hexDigit_lower (n : Nat) (h : n < 16) : hexDigit n ∈ "0123456789abcdef".data := by
  interval_cases n <;> decide

theorem hexEncodeToString_lower (b : Bytes) :
    ∀ c ∈ (hexEncodeToString b).data, c ∈ "0123456789abcdef".data := by
  intro c hc
  simp only [hexEncodeToString, List.mem_flatMap, List.mem_cons, List.mem_singleton,
    List.not_mem_nil, or_false] at hc
  obtain ⟨x, _, hx | hx⟩ := hc
  · rw [hx]; exact hexDigit_lower _ (Nat.mod_lt _ (by decide))
  · rw [hx]; exact hexDigit_lower _ (Nat.mod_lt _ (by decide))

/-- C6: `Validate` returns nil exactly when `utils.CheckSign`, called with the
keys (the transaction's key appended), the string `forSign`, the transaction's
signature and multisig disabled, returns true without error. `forSign` joins
with commas, in this order, type, time, user id, state id and the lower-case hex
of the public key; for type 1, time 1000, user 5, state 1 it is "1,1000,5,1,"
followed by that hex. A false verdict (no gate error) makes `Validate` return
`ErrInfo("incorrect sign")`, a gate error is returned through `ErrInfo`. -/
theorem validate_succeeds_iff_signature_verifies {σ : Type} (d : ParserDeps σ) (p : Parser) :
    ((Validate d p).1 = none ↔
      d.CheckSign (p.PublicKeys ++ [p.TxMapsBytes "pub"]) (forSign p) (p.TxMap "sign") false
        = (true, none))
    ∧ (d.CheckSign (p.PublicKeys ++ [p.TxMapsBytes "pub"]) (forSign p) (p.TxMap "sign") false
        = (false, none) →
      (Validate d p).1 = some (d.ErrInfo (ErrArg.text "incorrect sign")))
    ∧ (∀ verdict e,
      d.CheckSign (p.PublicKeys ++ [p.TxMapsBytes "pub"]) (forSign p) (p.TxMap "sign") false
        = (verdict, some e) →
      (Validate d p).1 = some (d.ErrInfo (ErrArg.err e)))
    ∧ forSign p = p.TxMap "type" ++ [44] ++ p.TxMap "time" ++ [44]
        ++ toBytes (fmtInt p.TxCitizenID) ++ [44] ++ toBytes (fmtInt p.TxStateID) ++ [44]
        ++ toBytes (hexEncodeToString (p.TxMapsBytes "pub"))
    ∧ (∀ c ∈ (hexEncodeToString (p.TxMapsBytes "pub")).data, c ∈ "0123456789abcdef".data)
    ∧ (p.TxMap "type" = toBytes "1" → p.TxMap "time" = toBytes "1000" →
      p.TxCitizenID = 5 → p.TxStateID = 1 →
      forSign p = toBytes ("1,1000,5,1," ++ hexEncodeToString (p.TxMapsBytes "pub"))) := by
  have hv : ∀ r : Bool × Option GoError,
      d.CheckSign (p.PublicKeys ++ [p.TxMapsBytes "pub"]) (forSign p) (p.TxMap "sign") false
        = r →
      (Validate d p).1 = (match r.2 with
        | some err => some (d.ErrInfo (ErrArg.err err))
        | none => if !r.1 then some (d.ErrInfo (ErrArg.text "incorrect sign")) else none) := by
    intro r hr
    have hr2 : d.CheckSign (p.PublicKeys ++ [p.TxMapsBytes "pub"])
        (forSign { p with PublicKeys := p.PublicKeys ++ [p.TxMapsBytes "pub"] })
        (p.TxMap "sign") false = r := hr
    unfold Validate
    simp only [hr2]
    rcases r with ⟨b, _ | e⟩
    · cases b <;> rfl
    · rfl
  refine ⟨?_, ?_, ?_, ?_, hexEncodeToString_lower _, ?_⟩
  · constructor
    · intro h
      rw [hv _ rfl] at h
      generalize d.CheckSign (p.PublicKeys ++ [p.TxMapsBytes "pub"]) (forSign p)
        (p.TxMap "sign") false = r at h
      rcases r with ⟨b, _ | e⟩
      · cases b
        · simp at h
        · rfl
      · simp at h
    · intro h
      rw [hv _ h]
      rfl
  · intro h
    rw [hv _ h]
    rfl
  · intro verdict e h
    rw [hv _ h]
  · rfl
  · intro h1 h2 h3 h4
    have hp : toBytes "1" ++ toBytes "," ++ toBytes "1000" ++ toBytes "," ++ toBytes (fmtInt 5)
        ++ toBytes "," ++ toBytes (fmtInt 1) ++ toBytes "," = toBytes "1,1000,5,1," := by
      decide
    simp only [forSign, h1, h2, h3, h4, toBytes_append]
    rw [hp]

/-- C6 on the new-account transaction of user 5: the gate accepts, and
`forSign` is "1,1000,5,1,abcd". -/
theorem validate_succeeds_iff_signature_verifies_witness :
    (Validate (exampleParserDeps "" [9, 9]) exampleParser).1 = none
    ∧ (Validate (exampleParserDeps "" [8]) exampleParser).1 = some "[ERROR] incorrect sign"
    ∧ forSign exampleParser = toBytes ("1,1000,5,1," ++ "abcd") :=
  ⟨(validate_succeeds_iff_signature_verifies (exampleParserDeps "" [9, 9])
      exampleParser).1.mpr (by decide),
   (validate_succeeds_iff_signature_verifies (exampleParserDeps "" [8])
      exampleParser).2.1 (by decide),
   (validate_succeeds_iff_signature_verifies (exampleParserDeps "" [9, 9])
      exampleParser).2.2.2.2.2 (by decide) (by decide) rfl rfl⟩

/-- C7: when `Action` returns nil it has made exactly two journaled writes, in
this order: the wallet row in `dlt_wallets` with `public_key_0` the hex of the
public key, keyed by `wallet_id` = the text of the user id, then the row of
`<stateID>_accounts` with `citizen_id` the user id and `amount` 0. Nothing else
reaches the journal, and the storage is what these two writes left. -/
theorem action_success_writes_wallet_then_account {σ : Type} (d : ParserDeps σ)
    (p : Parser) (w : World σ) (h : (Action d p w).1 = none) :
    (Action d p w).2.events = w.events ++
      [Event.upd ⟨["public_key_0"], [SqlValue.str (hexEncodeToString (p.TxMapsBytes "pub"))],
         "dlt_wallets", ["wallet_id"], [d.Int64ToStr p.TxCitizenID], true⟩,
       Event.upd ⟨["citizen_id", "amount"], [SqlValue.int p.TxCitizenID, SqlValue.int 0],
         p.TxStateIDStr ++ "_accounts", [], [], true⟩]
    ∧ (Action d p w).2.store
        = (d.selectiveLoggingAndUpd (accountsCall p)
            (d.selectiveLoggingAndUpd (walletCall d p) w.store).2).2 := by
  have key : ∀ x : Option GoError × World σ, x = Action d p w → x.1 = none →
      x.2.events = w.events ++ [Event.upd (walletCall d p), Event.upd (accountsCall p)]
      ∧ x.2.store = (d.selectiveLoggingAndUpd (accountsCall p)
          (d.selectiveLoggingAndUpd (walletCall d p) w.store).2).2 := by
    intro x hx hn
    subst hx
    unfold Action doUpd at *
    cases h1 : (d.selectiveLoggingAndUpd (walletCall d p) w.store).1 with
    | some e => simp [h1] at hn
    | none =>
      cases h2 : (d.selectiveLoggingAndUpd (accountsCall p)
          (d.selectiveLoggingAndUpd (walletCall d p) w.store).2).1 with
      | some e => simp [h1, h2] at hn
      | none => simp [h1, h2]
  exact key _ rfl h

/-- C7 for user 5 in state 1: a wallet row keyed by "5", then the accounts row
with `citizen_id` 5 and `amount` 0. -/
theorem action_success_writes_wallet_then_account_witness :
    (Action (exampleParserDeps "" [9, 9]) exampleParser ⟨[], []⟩).1 = none
    ∧ (Action (exampleParserDeps "" [9, 9]) exampleParser ⟨[], []⟩).2.events =
      [Event.upd ⟨["public_key_0"], [SqlValue.str "abcd"], "dlt_wallets", ["wallet_id"],
         ["5"], true⟩,
       Event.upd ⟨["citizen_id", "amount"], [SqlValue.int 5, SqlValue.int 0],
         "1_accounts", [], [], true⟩] :=
  ⟨by decide,
   ((action_success_writes_wallet_then_account (exampleParserDeps "" [9, 9]) exampleParser
      ⟨[], []⟩ (by decide)).1).trans (by decide)⟩

/-- C8 as stated fails: with the wallet write succeeding and the accounts write
failing, `Action` returns an error, yet no rollback was invoked and the storage
still holds the wallet row, while it was empty before `Action`. -/
theorem action_failure_does_not_roll_back :
    (Action (exampleParserDeps "1_accounts" [9, 9]) exampleParser ⟨[], []⟩).1
      = some "[ERROR] write failed"
    ∧ Event.rollback ∉ (Action (exampleParserDeps "1_accounts" [9, 9]) exampleParser
        ⟨[], []⟩).2.events
    ∧ (Action (exampleParserDeps "1_accounts" [9, 9]) exampleParser ⟨[], []⟩).2.store
      = [⟨["public_key_0"], [SqlValue.str "abcd"], "dlt_wallets", ["wallet_id"], ["5"], true⟩]
    ∧ (Action (exampleParserDeps "1_accounts" [9, 9]) exampleParser ⟨[], []⟩).2.store
      ≠ ([] : List WriteCall) := by
  decide

/-- C8 amended: when a write fails, `Action` returns that error through
`ErrInfo` at once. If the wallet write fails the accounts write is not
attempted; if the wallet write succeeds and the accounts write fails, the
journal has seen exactly these two writes. In neither case does `Action` call
`autoRollback`: the storage is left as the writes left it. The undo is the
separate method `Rollback`, which is one call of `autoRollback`. -/
theorem action_failure_returns_error_without_rollback {σ : Type} (d : ParserDeps σ)
    (p : Parser) (w : World σ) :
    (∀ e, (d.selectiveLoggingAndUpd (walletCall d p) w.store).1 = some e →
      (Action d p w).1 = some (d.ErrInfo (ErrArg.err e))
      ∧ (Action d p w).2.events = w.events ++ [Event.upd (walletCall d p)]
      ∧ (Action d p w).2.store = (d.selectiveLoggingAndUpd (walletCall d p) w.store).2)
    ∧ (∀ e, (d.selectiveLoggingAndUpd (walletCall d p) w.store).1 = none →
      (d.selectiveLoggingAndUpd (accountsCall p)
        (d.selectiveLoggingAndUpd (walletCall d p) w.store).2).1 = some e →
      (Action d p w).1 = some (d.ErrInfo (ErrArg.err e))
      ∧ (Action d p w).2.events
          = w.events ++ [Event.upd (walletCall d p), Event.upd (accountsCall p)]
      ∧ (Action d p w).2.store
          = (d.selectiveLoggingAndUpd (accountsCall p)
              (d.selectiveLoggingAndUpd (walletCall d p) w.store).2).2)
    ∧ (Event.rollback ∉ w.events → Event.rollback ∉ (Action d p w).2.events)
    ∧ (Rollback d w).1 = (d.autoRollback w.store).1
    ∧ (Rollback d w).2.store = (d.autoRollback w.store).2
    ∧ (Rollback d w).2.events = w.events ++ [Event.rollback] := by
  refine ⟨?_, ?_, ?_, rfl, rfl, rfl⟩
  · intro e h1
    simp [Action, doUpd, h1]
  · intro e h1 h2
    simp [Action, doUpd, h1, h2]
  · intro hw
    unfold Action doUpd
    cases h1 : (d.selectiveLoggingAndUpd (walletCall d p) w.store).1 with
    | some e => simp [h1, hw]
    | none =>
      cases h2 : (d.selectiveLoggingAndUpd (accountsCall p)
          (d.selectiveLoggingAndUpd (walletCall d p) w.store).2).1 with
      | some e => simp [h1, h2, hw]
      | none => simp [h1, h2, hw]

/-- C8 amended, on the failing accounts write: the error comes back, the
wallet row stays, and a following `Rollback` empties the storage. -/
theorem action_failure_returns_error_without_rollback_witness :
    (Action (exampleParserDeps "1_accounts" [9, 9]) exampleParser ⟨[], []⟩).1
      = some ((exampleParserDeps "1_accounts" [9, 9]).ErrInfo (ErrArg.err "write failed"))
    ∧ (Rollback (exampleParserDeps "1_accounts" [9, 9])
        (Action (exampleParserDeps "1_accounts" [9, 9]) exampleParser ⟨[], []⟩).2).2.store
      = [] :=
  ⟨((action_failure_returns_error_without_rollback (exampleParserDeps "1_accounts" [9, 9])
      exampleParser ⟨[], []⟩).2.1 "write failed" (by decide) (by decide)).1,
   by decide⟩

/-! ## Claims on `SingleResult` -/

/-- C10: with a stored error every accessor returns the zero or empty value
and that error. Without one, `Float64` reads the first 8 bytes as a
little-endian 64-bit pattern, so it returns exactly when the result has at
least 8 bytes and panics otherwise. On the not-found result of `Single` (empty
bytes, nil error) `Float64` panics, while `Int64`, `Int`, `String` and `Bytes`
return without error. -/
theorem single_result_accessors (BytesToInt64 BytesToInt : Bytes → Int) :
    (∀ (r : SingleResult) (e : GoError), r.err = some e →
      r.Int64 BytesToInt64 = Ret.returns 0 (some e)
      ∧ r.Int BytesToInt = Ret.returns 0 (some e)
      ∧ r.Float64 = Ret.returns 0 (some e)
      ∧ r.String = Ret.returns [] (some e)
      ∧ r.Bytes = Ret.returns [] (some e))
    ∧ (∀ (b0 b1 b2 b3 b4 b5 b6 b7 : Nat) (tail : Bytes),
      SingleResult.Float64 ⟨b0 :: b1 :: b2 :: b3 :: b4 :: b5 :: b6 :: b7 :: tail, none⟩
        = Ret.returns (b0 + b1 * 256 + b2 * 256 ^ 2 + b3 * 256 ^ 3 + b4 * 256 ^ 4
            + b5 * 256 ^ 5 + b6 * 256 ^ 6 + b7 * 256 ^ 7) none)
    ∧ (∀ r : SingleResult, r.err = none →
      ((∃ bits, r.Float64 = Ret.returns bits none) ↔ 8 ≤ r.result.length)
      ∧ (r.result.length < 8 → r.Float64 = Ret.panics))
    ∧ (∀ query args : String,
      Single query args ScanResult.noRows = ⟨[], none⟩
      ∧ (Single query args ScanResult.noRows).Float64 = Ret.panics
      ∧ (Single query args ScanResult.noRows).Int64 BytesToInt64
          = Ret.returns (BytesToInt64 []) none
      ∧ (Single query args ScanResult.noRows).Int BytesToInt
          = Ret.returns (BytesToInt []) none
      ∧ (Single query args ScanResult.noRows).String = Ret.returns [] none
      ∧ (Single query args ScanResult.noRows).Bytes = Ret.returns [] none) := by
  have hshort : ∀ b : Bytes, b.length < 8 → littleEndianUint64 b = none := by
    intro b hb
    match b, hb with
    | [], _ => rfl
    | [_], _ => rfl
    | [_, _], _ => rfl
    | [_, _, _], _ => rfl
    | [_, _, _, _], _ => rfl
    | [_, _, _, _, _], _ => rfl
    | [_, _, _, _, _, _], _ => rfl
    | [_, _, _, _, _, _, _], _ => rfl
    | _ :: _ :: _ :: _ :: _ :: _ :: _ :: _ :: _, hb => simp at hb; omega
  refine ⟨?_, ?_, ?_, ?_⟩
  · intro r e he
    simp [SingleResult.Int64, SingleResult.Int, SingleResult.Float64, SingleResult.String,
      SingleResult.Bytes, he]
  · intro b0 b1 b2 b3 b4 b5 b6 b7 tail
    simp [SingleResult.Float64, littleEndianUint64]
  · intro r he
    have hpan : r.result.length < 8 → r.Float64 = Ret.panics := by
      intro hlt
      simp [SingleResult.Float64, he, hshort r.result hlt]
    refine ⟨⟨?_, ?_⟩, hpan⟩
    · rintro ⟨bits, hb⟩
      by_contra hlt
      rw [hpan (by omega)] at hb
      exact absurd hb (by simp)
    · intro hge
      obtain ⟨res, err⟩ := r
      simp only at he hge
      subst he
      match res, hge with
      | b0 :: b1 :: b2 :: b3 :: b4 :: b5 :: b6 :: b7 :: tail, _ =>
        exact ⟨_, rfl⟩
  · intro query args
    refine ⟨rfl, rfl, rfl, rfl, rfl, rfl⟩

/-- C10 on a failed query, on an 8-byte result and on the not-found result. -/
theorem single_result_accessors_witness :
    (Single "q" "[]" (ScanResult.failed "boom")).Float64
      = Ret.returns 0 (some "boom in query q []")
    ∧ (Single "q" "[]" (ScanResult.row [1, 2, 0, 0, 0, 0, 0, 0])).Float64
      = Ret.returns 513 none
    ∧ (∃ bits, (Single "q" "[]" (ScanResult.row [1, 2, 0, 0, 0, 0, 0, 0])).Float64
        = Ret.returns bits none)
    ∧ (Single "q" "[]" ScanResult.noRows).Float64 = Ret.panics :=
  ⟨((single_result_accessors (fun _ => 0) (fun _ => 0)).1 _ "boom in query q []"
      (by decide)).2.2.1,
   ((single_result_accessors (fun _ => 0) (fun _ => 0)).2.1 1 2 0 0 0 0 0 0 []).trans
     (by decide),
   ((single_result_accessors (fun _ => 0) (fun _ => 0)).2.2.1
      (Single "q" "[]" (ScanResult.row [1, 2, 0, 0, 0, 0, 0, 0])) rfl).1.mpr (by decide),
   ((single_result_accessors (fun _ => 0) (fun _ => 0)).2.2.1
      (Single "q" "[]" ScanResult.noRows) rfl).2 (by decide)⟩

/-! ## Decimal strings and `strconv.ParseInt` -/

theorem decDigit_digitChar (k : Nat) (h : k < 10) : decDigit (Nat.digitChar k) = some k := by
  interval_cases k <;> decide

theorem isSpace_digitChar (k : Nat) (h : k < 10) : isSpace (Nat.digitChar k) = false := by
  interval_cases k <;> decide

theorem digitChar_not_sign (k : Nat) (h : k < 10) :
    Nat.digitChar k ≠ '+' ∧ Nat.digitChar k ≠ '-' := by
  interval_cases k <;> decide

theorem parseUintLoop_append (xs ys : List Char) (a : Nat) :
    parseUintLoop (xs ++ ys) a = (parseUintLoop xs a).bind (parseUintLoop ys) := by
  induction xs generalizing a with
  | nil => rfl
  | cons c cs ih =>
    simp only [List.cons_append, parseUintLoop]
    cases decDigit c with
    | none => rfl
    | some d =>
      dsimp only
      split
      · exact ih _
      · rfl

/-- The digits written by `Nat.toDigitsCore` for `n`: in front of `ds` stands a
block `D` of decimal digits, none of them white space, that `parseUintLoop`
reads back as `n`. -/
theorem toDigitsCore_block (n : Nat) : ∀ (fuel : Nat) (ds : List Char), n < fuel →
    ∃ D : List Char, Nat.toDigitsCore 10 fuel n ds = D ++ ds ∧ D ≠ []
      ∧ (∀ c ∈ D, isSpace c = false ∧ c ≠ '+' ∧ c ≠ '-')
      ∧ (∀ a, parseUintLoop D a =
          if a * 10 ^ D.length + n < 2 ^ 64 then some (a * 10 ^ D.length + n) else none) := by
  induction n using Nat.strong_induction_on with
  | _ n ih =>
    intro fuel ds hf
    obtain ⟨f, rfl⟩ : ∃ f, fuel = f + 1 := ⟨fuel - 1, by omega⟩
    have hmod : n % 10 < 10 := Nat.mod_lt _ (by decide)
    by_cases h0 : n / 10 = 0
    · refine ⟨[Nat.digitChar (n % 10)], ?_, by simp, ?_, ?_⟩
      · simp [Nat.toDigitsCore, h0]
      · intro c hc
        simp only [List.mem_singleton] at hc
        subst hc
        exact ⟨isSpace_digitChar _ hmod, digitChar_not_sign _ hmod⟩
      · intro a
        have hn : n % 10 = n := by omega
        rw [hn] at hmod ⊢
        simp only [parseUintLoop, decDigit_digitChar n hmod, List.length_singleton, pow_one]
    · have hlt : n / 10 < n := by omega
      obtain ⟨D, hD, hne, hall, hparse⟩ :=
        ih (n / 10) hlt f (Nat.digitChar (n % 10) :: ds) (by omega)
      refine ⟨D ++ [Nat.digitChar (n % 10)], ?_, by simp, ?_, ?_⟩
      · simp [Nat.toDigitsCore, h0, hD]
      · intro c hc
        rcases List.mem_append.mp hc with hc | hc
        · exact hall c hc
        · simp only [List.mem_singleton] at hc
          subst hc
          exact ⟨isSpace_digitChar _ hmod, digitChar_not_sign _ hmod⟩
      · intro a
        rw [parseUintLoop_append, hparse a]
        have hp10 : 10 ^ (D.length + 1) = 10 ^ D.length * 10 := pow_succ 10 D.length
        simp only [List.length_append, List.length_singleton, hp10]
        have hX : a * (10 ^ D.length * 10) = (a * 10 ^ D.length) * 10 := by ring
        rw [hX]
        generalize a * 10 ^ D.length = Y
        have e : (Y + n / 10) * 10 + n % 10 = Y * 10 + n := by omega
        by_cases hc : Y + n / 10 < 2 ^ 64
        · simp only [hc, if_true, Option.some_bind, parseUintLoop, decDigit_digitChar _ hmod, e]
        · have hc2 : ¬ (Y * 10 + n < 2 ^ 64) := by omega
          simp only [hc, hc2, if_false, Option.none_bind]

/-- The decimal text of a natural number (`Nat.repr`) goes through
`strconv.ParseInt` unchanged below `2^63` and is a range error from there on. -/
theorem ParseInt_repr (v : Nat) :
    ParseInt (Nat.repr v) = if v < 2 ^ 63 then some (v : Int) else none := by
  obtain ⟨D, hD, hne, hall, hparse⟩ := toDigitsCore_block v (v + 1) [] (by omega)
  have hdata : (Nat.repr v).data = D := by
    have h1 : Nat.toDigitsCore 10 (v + 1) v [] = D := by simpa using hD
    show (Nat.toDigitsCore 10 (v + 1) v []) = D
    exact h1
  obtain ⟨c, cs, rfl⟩ : ∃ c cs, D = c :: cs := by
    cases D with
    | nil => exact absurd rfl hne
    | cons c cs => exact ⟨c, cs, rfl⟩
  have hc := (hall c (List.mem_cons_self _ _)).2
  have hp := hparse 0
  simp only [Nat.zero_mul, Nat.zero_add] at hp
  unfold ParseInt
  rw [hdata]
  have h1 : (c == '-') = false := by simpa using hc.2
  have h2 : ¬ (c = '+' ∨ c = '-') := fun h => h.elim hc.1 hc.2
  simp only [h1, h2, beq_iff_eq, if_false, ParseUint, hp]
  have e63 : (2 : Nat) ^ 63 = 9223372036854775808 := by norm_num
  have e64 : (2 : Nat) ^ 64 = 18446744073709551616 := by norm_num
  rw [e63, e64] at *
  by_cases h63 : v < 9223372036854775808
  · have h64 : v < 18446744073709551616 := by omega
    have h3 : ¬ (9223372036854775808 ≤ v) := by omega
    simp [h64, h63, h3, hc.1, hc.2, hp]
  · by_cases h64 : v < 18446744073709551616
    · have h3 : 9223372036854775808 ≤ v := by omega
      simp [h64, h63, h3, hc.1, hc.2, hp]
    · simp [h64, h63, hc.1, hc.2, hp]

/-- The decimal text of a natural number has no white space to trim. -/
theorem TrimSpace_repr (v : Nat) : TrimSpace (Nat.repr v) = Nat.repr v := by
  obtain ⟨D, hD, hne, hall, _⟩ := toDigitsCore_block v (v + 1) [] (by omega)
  have hdata : (Nat.repr v).data = D := by
    have h1 : Nat.toDigitsCore 10 (v + 1) v [] = D := by simpa using hD
    show (Nat.toDigitsCore 10 (v + 1) v []) = D
    exact h1
  have hdrop : ∀ l : List Char, (∀ c ∈ l, isSpace c = false) → l.dropWhile isSpace = l := by
    intro l hl
    cases l with
    | nil => rfl
    | cons c cs => simp [List.dropWhile, hl c (List.mem_cons_self _ _)]
  have hsp : ∀ c ∈ D, isSpace c = false := fun c hc => (hall c hc).1
  have hrev : ∀ c ∈ D.reverse, isSpace c = false := fun c hc => hsp c (List.mem_reverse.mp hc)
  unfold TrimSpace
  rw [hdata, hdrop D hsp, hdrop D.reverse hrev, List.reverse_reverse, ← hdata]

/-- The `uint64` case on the decimal text of `v` (field without the `address`
tag): the value handed to `BinMarshal` is `v` below `2^63`, and 0 from `2^63`
on, where the signed parse reports a range error. -/
theorem uint64_field_of_decimal_text (d : Deps) (form : Form) (fitem : FieldInfo)
    (idata : Bytes) (v : Nat) (ht : fitem.Type_ = "uint64")
    (ha : Contains fitem.Tags "address" = false)
    (hv : FormValue form fitem.Name = Nat.repr v) :
    encodeField d form fitem idata
      = Step.next (d.BinMarshal idata (GoValue.uint64 (if v < 2 ^ 63 then v else 0))) := by
  have hval : fieldVal d form fitem = Nat.repr v := by
    simp [fieldVal, ha, hv, TrimSpace_repr]
  have hu : ∀ n : Nat, n < 2 ^ 63 → toUint64 (n : Int) = n := by
    intro n hn
    unfold toUint64
    have h1 : ((n : Int) % 2 ^ 64) = (n : Int) := by
      apply Int.emod_eq_of_lt
      · omega
      · have : (n : Int) < 2 ^ 63 := by exact_mod_cast hn
        omega
    rw [h1, Int.toNat_ofNat]
  have z : toUint64 0 = 0 := by decide
  have e1 : encodeField d form fitem idata
      = Step.next (d.BinMarshal idata (GoValue.uint64 (toUint64
          (match ParseInt (Nat.repr v) with
          | some x => x
          | none => 0)))) := by
    simp [encodeField, ht, hval]
  rw [e1, ParseInt_repr]
  by_cases h63 : v < 2 ^ 63
  · rw [if_pos h63, if_pos h63]
    exact congrArg (fun x => Step.next (d.BinMarshal idata (GoValue.uint64 x))) (hu v h63)
  · rw [if_neg h63, if_neg h63]
    exact congrArg (fun x => Step.next (d.BinMarshal idata (GoValue.uint64 x))) z

end GoGenesis
